import Mathlib

/-!
# products-api: rate limiter verification

A shallow embedding of the per-client rate limiter of the `products-api`
repository (package `ratelimiter` and its `api`-level constructor), together
with proofs of the specified properties.

Modelling conventions:
* Go `time.Time` and `time.Duration` are both modelled as `Int` nanoseconds
  (`time.Second = 10^9`); `now.Sub(t)` is integer subtraction.
* The Go map `map[string]ClientActivity` is modelled as an association list
  with Go-map semantics: lookup finds the entry for a key, a write replaces
  the entry in place or appends a fresh one.
* `Allow` reads the clock (`rl.time.Now()`); the embedding passes the clock
  reading `now` explicitly.  The two maintenance goroutines are modelled by
  the effect of a single tick of each loop body (`limitResetTick`,
  `clientCleanupTick`); the periods the loops were started with
  (`cfg.LimitInterval`, `cfg.ClientTimeout`) are recorded in the limiter
  state.
* Go `int` is modelled as unbounded `Int`; request counts stay far below
  2^63 in every property considered, so wrap-around is immaterial.
-/

namespace ProductsApi

/-- A client identifier: the string key of the activity map. -/
abbrev ClientID := List Char

/-! ## Client-identity extraction: the regex `patIP` -/

/-- Character class of the pattern: an ASCII decimal digit. -/
def isPortDigit (c : Char) : Bool :=
  '0' ≤ c && c ≤ '9'

/-- The tail `:[0-9]` of pattern `patIP` after the colon: between one and
five decimal digits (the repetition range of the digit class). -/
def validPort (d : List Char) : Bool :=
  decide (1 ≤ d.length) && decide (d.length ≤ 5) && d.all isPortDigit

/-- The capture group `(.*)` of `patIP`: in Go's RE2 syntax, `.` matches any
character except a newline (the `s` flag is not set). -/
def validCapture (p : List Char) : Bool :=
  p.all (fun c => c != '\n')

/-- One candidate split of the `patIP` match at position `i`: the greedy
`(.*)` group takes `s.take i`, and the attempt succeeds when the remainder
is a colon followed by one to five digits and the capture is newline-free. -/
def patIPTry (s : ClientID) (i : Nat) : Option ClientID :=
  match s.drop i with
  | ':' :: d =>
    if validPort d && validCapture (s.take i) then some (s.take i) else none
  | _ => none

/-- Go regex `patIP`, anchored `^(.*):` then one to five digits then `$`:
try every split point for the greedy `(.*)` group, longest first, and return
the first (hence longest) capture whose attempt succeeds.  `some p` is the
captured group of `patIP.FindStringSubmatch(s)[1]`; `none` means
`patIP.MatchString(s)` is false. -/
def patIPCapture (s : ClientID) : Option ClientID :=
  (List.range (s.length + 1)).reverse.findSome? (patIPTry s)

/-- The identity computed at the top of `RateLimiter.Allow`: the capture of
`patIP` when the remote address matches, the empty string otherwise. -/
def extractClientID (s : ClientID) : ClientID :=
  (patIPCapture s).getD []

/-- Split a string at its last colon: `some (p, d)` with `s = p ++ ':' :: d`
and no colon in `d`, or `none` when `s` has no colon. -/
def lastColonSplit : ClientID → Option (ClientID × ClientID)
  | [] => none
  | c :: rest =>
    match lastColonSplit rest with
    | some (p, d) => some (c :: p, d)
    | none => if c = ':' then some ([], rest) else none

/-- The extraction rule in the spec's words, amended by the newline proviso:
if the string ends in a colon followed by one to five decimal digits and the
part before that final colon contains no newline, the identity is that part;
every other string gets the empty identity. -/
def specClientID (s : ClientID) : ClientID :=
  match lastColonSplit s with
  | some (p, d) => if validPort d && validCapture p then p else []
  | none => []

/-! ## Data model -/

/-- Go struct `ClientActivity`: tracks the number of requests and the last seen time
for one client. -/
structure ClientActivity where
  requestCount : Int
  lastSeen : Int
deriving DecidableEq, Repr

/-- Go struct `Config`: configuration for a `RateLimiter` (durations in
nanoseconds). -/
structure Config where
  Limit : Int
  LimitInterval : Int
  ClientTimeout : Int
deriving DecidableEq, Repr

/-- Value of `time.Second` in nanoseconds. -/
def second : Int := 1000000000

/-- Value of `time.Minute` in nanoseconds. -/
def minute : Int := 60 * second

/-- The activity store: `map[string]ClientActivity`. -/
abbrev ActivityStore := List (ClientID × ClientActivity)

/-- Go map read `store[id]`: the value stored for `id`, if any. -/
def lookupClient : ActivityStore → ClientID → Option ClientActivity
  | [], _ => none
  | (k, a) :: rest, id => if k = id then some a else lookupClient rest id

/-- Go map write `store[id] = a`: replace the entry for `id` in place, or
append a fresh entry when `id` is not yet present. -/
def setClient : ActivityStore → ClientID → ClientActivity → ActivityStore
  | [], id, a => [(id, a)]
  | (k, b) :: rest, id, a =>
    if k = id then (id, a) :: rest else (k, b) :: setClient rest id a

/-- The `RateLimiter` state: the configured limit and the activity map.
`limitInterval` and `clientTimeout` record the periods the two maintenance
loops were started with (`startLimitReset(ctx, cfg.LimitInterval)` and
`startClientCleanup(ctx, cfg.ClientTimeout)`). -/
structure RateLimiter where
  limit : Int
  activity : ActivityStore
  limitInterval : Int
  clientTimeout : Int
deriving DecidableEq, Repr

/-- The three construction errors of `errors.go`; distinct `errors.New`
values. -/
inductive RateLimiterError where
  | ErrInvalidLimit
  | ErrInvalidLimitInterval
  | ErrInvalidClientTimeout
deriving DecidableEq, Repr

/-- Constructor `New`: validates the configuration in order and initialises the rate
limiter with an empty activity map, starting the two maintenance loops. -/
def New (cfg : Config) : Except RateLimiterError RateLimiter :=
  if cfg.Limit ≤ 0 then
    .error .ErrInvalidLimit
  else if cfg.LimitInterval < second then
    .error .ErrInvalidLimitInterval
  else if cfg.ClientTimeout ≤ cfg.LimitInterval then
    .error .ErrInvalidClientTimeout
  else
    .ok { limit := cfg.Limit, activity := [],
          limitInterval := cfg.LimitInterval,
          clientTimeout := cfg.ClientTimeout }

/-- Method `RateLimiter.Allow`: extract the client id from the request's remote
address, look up (or synthesize with count 0) its activity record, increment
the count, stamp `lastSeen` with the clock reading, write the record back,
and admit iff the post-increment count is within the limit.  Returns the
admission decision and the updated limiter state. -/
def RateLimiter.Allow (rl : RateLimiter) (remoteAddr : ClientID) (now : Int) :
    Bool × RateLimiter :=
  let id := extractClientID remoteAddr
  let activity := (lookupClient rl.activity id).getD { requestCount := 0, lastSeen := 0 }
  let activity := { requestCount := activity.requestCount + 1, lastSeen := now : ClientActivity }
  (decide (activity.requestCount ≤ rl.limit),
   { rl with activity := setClient rl.activity id activity })

/-- Method `RateLimiter.NumberOfClients`: the number of clients currently tracked. -/
def RateLimiter.NumberOfClients (rl : RateLimiter) : Int :=
  rl.activity.length

/-- One tick of the `startLimitReset` loop body: reset the request count of
every client, leaving everything else untouched. -/
def RateLimiter.limitResetTick (rl : RateLimiter) : RateLimiter :=
  { rl with activity :=
      rl.activity.map (fun e => (e.1, { e.2 with requestCount := 0 })) }

/-- One tick of the `startClientCleanup` loop body at tick time `now`:
delete every client whose elapsed time since `lastSeen` is at least the
cleanup period (`dur = cfg.ClientTimeout`). -/
def RateLimiter.clientCleanupTick (rl : RateLimiter) (now : Int) : RateLimiter :=
  { rl with activity :=
      rl.activity.filter (fun e => !decide (now - e.2.lastSeen ≥ rl.clientTimeout)) }

/-! ## The no-op limiter -/

/-- Go struct `NoopLimiter`: carries no state. -/
structure NoopLimiter where
deriving DecidableEq, Repr

/-- Constructor `NewNoopLimiter`: builds the (unique) no-op limiter; it cannot fail. -/
def NewNoopLimiter : NoopLimiter := {}

/-- Method `NoopLimiter.Allow`: always returns true. -/
def NoopLimiter.Allow (_n : NoopLimiter) (_remoteAddr : ClientID) : Bool :=
  true

/-! ## The api-level constructor -/

/-- The limiter actually selected by the service: either the no-op limiter
or a real rate limiter. -/
inductive Limiter where
  | noop
  | real (rl : RateLimiter)
deriving DecidableEq, Repr

/-- Function `api.NewRateLimiter`: a non-positive limit selects the no-op limiter;
otherwise a real rate limiter is constructed with `LimitInterval` of one
second and `ClientTimeout` of one minute. -/
def NewRateLimiter (limit : Int) : Except RateLimiterError Limiter :=
  if limit ≤ 0 then
    .ok .noop
  else
    match New { Limit := limit, LimitInterval := second, ClientTimeout := minute } with
    | .error e => .error e
    | .ok rl => .ok (.real rl)

/-! ## Iterated calls (for the run-shaped properties) -/

/-- Runs `k` successive `Allow` calls for the same remote address at clock
reading `now`, threading the limiter state. -/
def allowIter (rl : RateLimiter) (remoteAddr : ClientID) (now : Int) : Nat → RateLimiter
  | 0 => rl
  | k + 1 => ((allowIter rl remoteAddr now k).Allow remoteAddr now).2

/-- A sequence of `Allow` calls, each with its own remote address and clock
reading, threading the limiter state. -/
def applyAllows (rl : RateLimiter) : List (ClientID × Int) → RateLimiter
  | [] => rl
  | (addr, now) :: rest => applyAllows ((rl.Allow addr now).2) rest

/-- The request count currently stored for `id` (0 when untracked), as
`Allow` would read it. -/
def countOf (rl : RateLimiter) (id : ClientID) : Int :=
  ((lookupClient rl.activity id).getD { requestCount := 0, lastSeen := 0 }).requestCount

/-! ## Store lemmas -/

theorem lookupClient_map_resetCount (st : ActivityStore) (id : ClientID) :
    lookupClient (st.map (fun e => (e.1, { e.2 with requestCount := 0 }))) id
      = (lookupClient st id).map (fun a => { a with requestCount := 0 }) := by
  induction st with
  | nil => rfl
  | cons hd tl ih =>
    obtain ⟨k, a⟩ := hd
    by_cases h : k = id <;> simp [lookupClient, h, ih]

theorem lookupClient_setClient_self (st : ActivityStore) (id : ClientID)
    (a : ClientActivity) :
    lookupClient (setClient st id a) id = some a := by
  induction st with
  | nil => simp [setClient, lookupClient]
  | cons hd tl ih =>
    obtain ⟨k, b⟩ := hd
    by_cases h : k = id <;> simp [setClient, lookupClient, h, ih]

theorem lookupClient_setClient_other (st : ActivityStore) (id id' : ClientID)
    (a : ClientActivity) (h : id' ≠ id) :
    lookupClient (setClient st id a) id' = lookupClient st id' := by
  induction st with
  | nil =>
    simp only [setClient, lookupClient]
    rw [if_neg (fun hh => h hh.symm)]
  | cons hd tl ih =>
    obtain ⟨k, b⟩ := hd
    by_cases hk : k = id
    · subst hk
      simp only [setClient, if_pos rfl, lookupClient]
      rw [if_neg (fun hh => h hh.symm), if_neg (fun hh => h hh.symm)]
    · simp only [setClient, if_neg hk, lookupClient]
      rw [ih]

theorem setClient_keys (st : ActivityStore) (id : ClientID) (a : ClientActivity) :
    ((setClient st id a).map Prod.fst = st.map Prod.fst ∧ lookupClient st id ≠ none)
    ∨ ((setClient st id a).map Prod.fst = st.map Prod.fst ++ [id]
        ∧ lookupClient st id = none) := by
  induction st with
  | nil => right; simp [setClient, lookupClient]
  | cons hd tl ih =>
    obtain ⟨k, b⟩ := hd
    by_cases h : k = id
    · left; simp [setClient, lookupClient, h]
    · rcases ih with ⟨h1, h2⟩ | ⟨h1, h2⟩
      · left; simp [setClient, lookupClient, h, h1, h2]
      · right; simp [setClient, lookupClient, h, h1, h2]

theorem setClient_length (st : ActivityStore) (id : ClientID) (a : ClientActivity) :
    st.length ≤ (setClient st id a).length := by
  induction st with
  | nil => simp [setClient]
  | cons hd tl ih =>
    obtain ⟨k, b⟩ := hd
    by_cases h : k = id
    · simp [setClient, h]
    · simp only [setClient, if_neg h, List.length_cons]
      omega

/-! ## Extraction lemmas -/

theorem findSome?_eq_some_of_unique {α β : Type} :
    ∀ (l : List α) (f : α → Option β) (x : α) (v : β),
      x ∈ l → f x = some v → (∀ y ∈ l, f y = none ∨ f y = some v) →
      l.findSome? f = some v := by
  intro l f x v
  induction l with
  | nil => intro hx _ _; cases hx
  | cons hd tl ih =>
    intro hx hfx huniq
    cases hf : f hd with
    | some w =>
      have hw := huniq hd (List.mem_cons_self hd tl)
      rw [hf] at hw
      rcases hw with hw | hw
      · cases hw
      · simp [List.findSome?, hf]
        exact Option.some.inj hw
    | none =>
      have hxtl : x ∈ tl := by
        rcases List.mem_cons.mp hx with rfl | hmem
        · rw [hfx] at hf; cases hf
        · exact hmem
      simp [List.findSome?, hf]
      exact ih hxtl hfx (fun y hy => huniq y (List.mem_cons_of_mem _ hy))

theorem exists_of_findSome?_eq_some {α β : Type} :
    ∀ (l : List α) (f : α → Option β) (v : β),
      l.findSome? f = some v → ∃ x, x ∈ l ∧ f x = some v := by
  intro l f v
  induction l with
  | nil => intro h; cases h
  | cons hd tl ih =>
    intro h
    cases hf : f hd with
    | some w =>
      simp [List.findSome?, hf] at h
      exact ⟨hd, List.mem_cons_self hd tl, by rw [hf, h]⟩
    | none =>
      simp [List.findSome?, hf] at h
      obtain ⟨x, hx, hfx⟩ := ih h
      exact ⟨x, List.mem_cons_of_mem _ hx, hfx⟩

theorem validPort_no_colon (d : ClientID) (h : validPort d = true) : ':' ∉ d := by
  intro hmem
  unfold validPort at h
  simp only [Bool.and_eq_true, List.all_eq_true] at h
  exact absurd (h.2 ':' hmem) (by decide)

theorem decomp_unique :
    ∀ (p p' d d' : ClientID), p ++ ':' :: d = p' ++ ':' :: d' →
      ':' ∉ d → ':' ∉ d' → p = p' ∧ d = d' := by
  intro p
  induction p with
  | nil =>
    intro p' d d' h hd hd'
    cases p' with
    | nil =>
      simp only [List.nil_append, List.cons.injEq] at h
      exact ⟨rfl, h.2⟩
    | cons c p'' =>
      simp only [List.nil_append, List.cons_append, List.cons.injEq] at h
      exfalso
      apply hd
      rw [h.2]
      exact List.mem_append_right _ (List.mem_cons_self _ _)
  | cons a p₂ ih =>
    intro p' d d' h hd hd'
    cases p' with
    | nil =>
      simp only [List.nil_append, List.cons_append, List.cons.injEq] at h
      exfalso
      apply hd'
      rw [← h.2]
      exact List.mem_append_right _ (List.mem_cons_self _ _)
    | cons b p₂' =>
      simp only [List.cons_append, List.cons.injEq] at h
      obtain ⟨h1, h2⟩ := ih p₂' d d' h.2 hd hd'
      exact ⟨by rw [h.1, h1], h2⟩

theorem patIPTry_eq_some (s : ClientID) (i : Nat) (q : ClientID) :
    patIPTry s i = some q ↔
      (q = s.take i ∧ ∃ d, s.drop i = ':' :: d ∧ validPort d = true
        ∧ validCapture (s.take i) = true) := by
  unfold patIPTry
  constructor
  · intro h
    split at h
    next d heq =>
      split at h
      next hcond =>
        simp only [Bool.and_eq_true] at hcond
        exact ⟨(Option.some.inj h).symm, d, heq, hcond.1, hcond.2⟩
      next => cases h
    next => cases h
  · rintro ⟨rfl, d, hdrop, hport, hcap⟩
    rw [hdrop]
    simp [hport, hcap]

theorem patIPCapture_complete (p d : ClientID) (hport : validPort d = true)
    (hcap : validCapture p = true) :
    patIPCapture (p ++ ':' :: d) = some p := by
  unfold patIPCapture
  refine findSome?_eq_some_of_unique _ _ p.length p ?_ ?_ ?_
  · simp only [List.mem_reverse, List.mem_range, List.length_append,
      List.length_cons]
    omega
  · rw [patIPTry_eq_some]
    refine ⟨(List.take_left p (':' :: d)).symm, d, List.drop_left p (':' :: d), hport, ?_⟩
    rw [List.take_left]
    exact hcap
  · intro j _
    cases hfj : patIPTry (p ++ ':' :: d) j with
    | none => exact Or.inl rfl
    | some q =>
      right
      rw [patIPTry_eq_some] at hfj
      obtain ⟨rfl, dj, hdrop, hportj, _⟩ := hfj
      have hs : (p ++ ':' :: d).take j ++ ':' :: dj = p ++ ':' :: d := by
        conv_rhs => rw [← List.take_append_drop j (p ++ ':' :: d)]
        rw [hdrop]
      obtain ⟨hpq, _⟩ := decomp_unique _ _ _ _ hs
        (validPort_no_colon _ hportj) (validPort_no_colon _ hport)
      rw [hpq]

theorem patIPCapture_sound (s q : ClientID) (h : patIPCapture s = some q) :
    ∃ d, s = q ++ ':' :: d ∧ validPort d = true ∧ validCapture q = true := by
  unfold patIPCapture at h
  obtain ⟨i, _, hfi⟩ := exists_of_findSome?_eq_some _ _ _ h
  rw [patIPTry_eq_some] at hfi
  obtain ⟨rfl, d, hdrop, hport, hcap⟩ := hfi
  refine ⟨d, ?_, hport, hcap⟩
  conv_lhs => rw [← List.take_append_drop i s]
  rw [hdrop]

theorem lastColonSplit_cons_some (c : Char) (rest p d : ClientID)
    (h : lastColonSplit rest = some (p, d)) :
    lastColonSplit (c :: rest) = some (c :: p, d) := by
  unfold lastColonSplit
  rw [h]

theorem lastColonSplit_cons_none (c : Char) (rest : ClientID)
    (h : lastColonSplit rest = none) :
    lastColonSplit (c :: rest) = if c = ':' then some ([], rest) else none := by
  unfold lastColonSplit
  rw [h]

theorem lastColonSplit_eq_none_iff (s : ClientID) :
    lastColonSplit s = none ↔ ':' ∉ s := by
  induction s with
  | nil => simp [lastColonSplit]
  | cons c rest ih =>
    cases hr : lastColonSplit rest with
    | some pd =>
      obtain ⟨p, d⟩ := pd
      rw [lastColonSplit_cons_some c rest p d hr]
      have hmem : ':' ∈ rest := by
        by_contra hno
        rw [ih.mpr hno] at hr
        cases hr
      simp [hmem]
    | none =>
      rw [lastColonSplit_cons_none c rest hr]
      have hno : ':' ∉ rest := ih.mp hr
      by_cases hc : c = ':'
      · simp [hc]
      · rw [if_neg hc]
        constructor
        · intro _
          simp only [List.mem_cons]
          rintro (h1 | h1)
          · exact hc h1.symm
          · exact hno h1
        · intro _
          rfl

theorem lastColonSplit_sound :
    ∀ (s p d : ClientID), lastColonSplit s = some (p, d) →
      s = p ++ ':' :: d ∧ ':' ∉ d := by
  intro s
  induction s with
  | nil => intro p d h; cases h
  | cons c rest ih =>
    intro p d h
    cases hr : lastColonSplit rest with
    | some pd =>
      obtain ⟨p', d'⟩ := pd
      rw [lastColonSplit_cons_some c rest p' d' hr] at h
      simp only [Option.some.injEq, Prod.mk.injEq] at h
      obtain ⟨hp, hd⟩ := h
      obtain ⟨hrest, hnod⟩ := ih p' d' hr
      subst hp
      subst hd
      exact ⟨by rw [hrest]; simp, hnod⟩
    | none =>
      rw [lastColonSplit_cons_none c rest hr] at h
      split at h
      next hc =>
        simp only [Option.some.injEq, Prod.mk.injEq] at h
        obtain ⟨hp, hd⟩ := h
        subst hp
        subst hd
        subst hc
        exact ⟨rfl, (lastColonSplit_eq_none_iff rest).mp hr⟩
      next => cases h

/-! ## Allow-step lemmas -/

theorem allow_fst (rl : RateLimiter) (addr : ClientID) (now : Int) :
    (rl.Allow addr now).1
      = decide (countOf rl (extractClientID addr) + 1 ≤ rl.limit) := rfl

theorem allow_snd_activity (rl : RateLimiter) (addr : ClientID) (now : Int) :
    (rl.Allow addr now).2.activity
      = setClient rl.activity (extractClientID addr)
          { requestCount := countOf rl (extractClientID addr) + 1, lastSeen := now } := rfl

theorem allow_snd_limit (rl : RateLimiter) (addr : ClientID) (now : Int) :
    (rl.Allow addr now).2.limit = rl.limit := rfl

theorem countOf_allow_same (rl : RateLimiter) (addr : ClientID) (now : Int) :
    countOf (rl.Allow addr now).2 (extractClientID addr)
      = countOf rl (extractClientID addr) + 1 := by
  simp [countOf, allow_snd_activity, lookupClient_setClient_self]

theorem countOf_allow_other (rl : RateLimiter) (addr : ClientID) (now : Int)
    (id' : ClientID) (h : id' ≠ extractClientID addr) :
    countOf (rl.Allow addr now).2 id' = countOf rl id' := by
  simp only [countOf, allow_snd_activity]
  rw [lookupClient_setClient_other _ _ _ _ h]

theorem countOf_allow_mono (rl : RateLimiter) (addr : ClientID) (now : Int)
    (id' : ClientID) :
    countOf rl id' ≤ countOf (rl.Allow addr now).2 id' := by
  by_cases h : id' = extractClientID addr
  · subst h
    rw [countOf_allow_same]
    omega
  · rw [countOf_allow_other _ _ _ _ h]

theorem applyAllows_count_mono (calls : List (ClientID × Int)) (rl : RateLimiter)
    (id' : ClientID) :
    countOf rl id' ≤ countOf (applyAllows rl calls) id' := by
  induction calls generalizing rl with
  | nil => simp [applyAllows]
  | cons c rest ih =>
    obtain ⟨addr, now⟩ := c
    calc countOf rl id' ≤ countOf (rl.Allow addr now).2 id' :=
          countOf_allow_mono rl addr now id'
      _ ≤ countOf (applyAllows (rl.Allow addr now).2 rest) id' := ih _

theorem applyAllows_limit (calls : List (ClientID × Int)) (rl : RateLimiter) :
    (applyAllows rl calls).limit = rl.limit := by
  induction calls generalizing rl with
  | nil => rfl
  | cons c rest ih =>
    obtain ⟨addr, now⟩ := c
    simp [applyAllows, ih, allow_snd_limit]

theorem allowIter_limit (rl : RateLimiter) (addr : ClientID) (now : Int) (k : Nat) :
    (allowIter rl addr now k).limit = rl.limit := by
  induction k with
  | zero => rfl
  | succ k ih => simp [allowIter, allow_snd_limit, ih]

theorem allowIter_countOf (rl : RateLimiter) (addr : ClientID) (now : Int) (k : Nat)
    (hfresh : lookupClient rl.activity (extractClientID addr) = none) :
    countOf (allowIter rl addr now k) (extractClientID addr) = (k : Int) := by
  induction k with
  | zero => simp [allowIter, countOf, hfresh]
  | succ k ih =>
    simp only [allowIter, countOf_allow_same, ih]
    push_cast
    ring

/-! ## Claim theorems: construction and ticks -/

/-- C2. `New` validates the configuration in order: the "invalid limit"
error iff `Limit ≤ 0`; otherwise the "invalid limit interval" error iff
`LimitInterval < 1s`; otherwise the "invalid client timeout" error iff
`ClientTimeout ≤ LimitInterval`; otherwise it succeeds (returning the
limiter and no error), and the three error identities are pairwise
distinct. -/
theorem new_validates_config_in_order (cfg : Config) :
    (New cfg = .error .ErrInvalidLimit ↔ cfg.Limit ≤ 0)
    ∧ (New cfg = .error .ErrInvalidLimitInterval ↔
        (0 < cfg.Limit ∧ cfg.LimitInterval < second))
    ∧ (New cfg = .error .ErrInvalidClientTimeout ↔
        (0 < cfg.Limit ∧ second ≤ cfg.LimitInterval
          ∧ cfg.ClientTimeout ≤ cfg.LimitInterval))
    ∧ (New cfg = .ok { limit := cfg.Limit, activity := [],
                       limitInterval := cfg.LimitInterval,
                       clientTimeout := cfg.ClientTimeout } ↔
        (0 < cfg.Limit ∧ second ≤ cfg.LimitInterval
          ∧ cfg.LimitInterval < cfg.ClientTimeout))
    ∧ (RateLimiterError.ErrInvalidLimit ≠ RateLimiterError.ErrInvalidLimitInterval
        ∧ RateLimiterError.ErrInvalidLimit ≠ RateLimiterError.ErrInvalidClientTimeout
        ∧ RateLimiterError.ErrInvalidLimitInterval ≠ RateLimiterError.ErrInvalidClientTimeout) := by
  unfold New
  split_ifs with h1 h2 h3 <;> simp_all

/-- C3. One cleanup tick at time `now` keeps a record exactly when its
elapsed time since `lastSeen` is strictly below the cleanup period; hence
after the tick no surviving record is stale, and every fresh record survives
with its fields unchanged. -/
theorem cleanup_tick_evicts_exactly_stale (rl : RateLimiter) (now : Int)
    (e : ClientID × ClientActivity) :
    (e ∈ (rl.clientCleanupTick now).activity ↔
      e ∈ rl.activity ∧ now - e.2.lastSeen < rl.clientTimeout)
    ∧ (e ∈ (rl.clientCleanupTick now).activity →
        now - e.2.lastSeen < rl.clientTimeout) := by
  have hmem : e ∈ (rl.clientCleanupTick now).activity ↔
      e ∈ rl.activity ∧ now - e.2.lastSeen < rl.clientTimeout := by
    simp [RateLimiter.clientCleanupTick, List.mem_filter]
  exact ⟨hmem, fun h => (hmem.mp h).2⟩

/-- C4. One reset tick zeroes every record's `requestCount`, leaves every
record's `lastSeen` unchanged, and leaves the tracked identities (hence
`NumberOfClients`) unchanged. -/
theorem reset_tick_zeroes_counts_only (rl : RateLimiter) (id : ClientID) :
    lookupClient rl.limitResetTick.activity id
      = (lookupClient rl.activity id).map (fun a => { a with requestCount := 0 })
    ∧ rl.limitResetTick.activity.map Prod.fst = rl.activity.map Prod.fst
    ∧ rl.limitResetTick.NumberOfClients = rl.NumberOfClients := by
  refine ⟨lookupClient_map_resetCount rl.activity id, ?_, ?_⟩
  · simp [RateLimiter.limitResetTick]
  · simp [RateLimiter.limitResetTick, RateLimiter.NumberOfClients]

/-- C7. The no-op limiter admits every request, holds no state (all its
values are equal to the one `NewNoopLimiter` builds), and its construction
cannot fail. -/
theorem noop_limiter_always_allows (n : NoopLimiter) (addr : ClientID) :
    n.Allow addr = true ∧ n = NewNoopLimiter :=
  ⟨rfl, rfl⟩

/-- C8. The api-level constructor returns the no-op limiter (with no error)
iff the limit is non-positive, and for every positive limit it returns a
real rate limiter built with `LimitInterval` of one second and
`ClientTimeout` of one minute. -/
theorem new_rate_limiter_selects_noop_iff_nonpositive (limit : Int) :
    (NewRateLimiter limit = .ok .noop ↔ limit ≤ 0)
    ∧ (NewRateLimiter limit = .ok (.real { limit := limit, activity := [],
                                           limitInterval := second,
                                           clientTimeout := minute }) ↔ 0 < limit) := by
  unfold NewRateLimiter New
  split_ifs with h1 h2 h3 <;> simp_all [second, minute]

/-- C10. The address consisting of a colon followed by digits only (here
`:8080`) matches the `patIP` shape with an empty capture, so it extracts to
the empty identity and lands in the same bucket as an address that does not
match the shape at all. -/
theorem port_only_address_shares_empty_bucket :
    patIPCapture [':', '8', '0', '8', '0'] = some []
    ∧ extractClientID [':', '8', '0', '8', '0'] = []
    ∧ patIPCapture ['n', 'o', 'n', 's', 'e', 'n', 's', 'e'] = none
    ∧ extractClientID [':', '8', '0', '8', '0']
        = extractClientID ['n', 'o', 'n', 's', 'e', 'n', 's', 'e'] := by
  refine ⟨by decide, by decide, by decide, by decide⟩

/-- C6 counterexample: the string made of `'\n'`, `':'`, `'1'` ends in a
colon followed by one digit (a valid port suffix), yet the code extracts the
empty identity rather than the part before the colon, because the `(.*)`
group of `patIP` cannot match a newline. -/
theorem extract_newline_counterexample :
    ['\n'] ++ ':' :: ['1'] = ['\n', ':', '1']
    ∧ validPort ['1'] = true
    ∧ extractClientID ['\n', ':', '1'] = []
    ∧ ['\n'] ≠ ([] : ClientID) :=
  ⟨rfl, by decide, by decide, by decide⟩

/-- C6 amended: extraction agrees everywhere with the last-colon-split rule
amended by the newline proviso — a string ending in a colon followed by one
to five digits extracts to the part before that final colon when that part
contains no newline, and every other string extracts to the empty
identity. -/
theorem extract_matches_last_colon_split (s : ClientID) :
    extractClientID s = specClientID s := by
  unfold extractClientID specClientID
  cases hsplit : lastColonSplit s with
  | none =>
    have hno : ':' ∉ s := (lastColonSplit_eq_none_iff s).mp hsplit
    cases hcap : patIPCapture s with
    | none => rfl
    | some p =>
      obtain ⟨d, hs, _, _⟩ := patIPCapture_sound s p hcap
      exfalso
      apply hno
      rw [hs]
      exact List.mem_append_right _ (List.mem_cons_self _ _)
  | some pd =>
    obtain ⟨p, d⟩ := pd
    obtain ⟨hs, hdno⟩ := lastColonSplit_sound s p d hsplit
    by_cases hgood : (validPort d && validCapture p) = true
    · have h1 : patIPCapture s = some p := by
        rw [hs]
        simp only [Bool.and_eq_true] at hgood
        exact patIPCapture_complete p d hgood.1 hgood.2
      rw [h1]
      simp [hgood]
    · have hgood' : (validPort d && validCapture p) = false := by
        revert hgood
        cases validPort d && validCapture p <;> simp
      have h2 : patIPCapture s = none := by
        cases hcap : patIPCapture s with
        | none => rfl
        | some q =>
          obtain ⟨d', hs', hport', hcap'⟩ := patIPCapture_sound s q hcap
          have hdno' : ':' ∉ d' := validPort_no_colon d' hport'
          have heq : q ++ ':' :: d' = p ++ ':' :: d := by rw [← hs', ← hs]
          obtain ⟨hq, hd⟩ := decomp_unique q p d' d heq hdno' hdno
          exfalso
          apply hgood
          rw [← hq, ← hd, hport', hcap']
          rfl
      rw [h2]
      simp [hgood']

/-! ## Claim theorems: Allow -/

/-- C1. Starting from a state where the client extracted from `addr` is
untracked, after `k` `Allow` calls its stored count is exactly `k`; the next
call stores count `k + 1` with `lastSeen` stamped `now`, and it returns true
iff that post-increment count is within the limit — so the first `N` calls
return true and call `N + 1` returns false when the limit is `N`. -/
theorem allow_increments_and_thresholds (rl rl2 : RateLimiter) (addr : ClientID)
    (now : Int) (k : Nat)
    (hfresh : lookupClient rl.activity (extractClientID addr) = none) :
    countOf (rl2.Allow addr now).2 (extractClientID addr)
      = countOf rl2 (extractClientID addr) + 1
    ∧ ((rl2.Allow addr now).1 = true
        ↔ countOf rl2 (extractClientID addr) + 1 ≤ rl2.limit)
    ∧ countOf (allowIter rl addr now k) (extractClientID addr) = (k : Int)
    ∧ lookupClient ((allowIter rl addr now k).Allow addr now).2.activity
        (extractClientID addr)
      = some { requestCount := (k : Int) + 1, lastSeen := now }
    ∧ (((allowIter rl addr now k).Allow addr now).1 = true
        ↔ (k : Int) + 1 ≤ rl.limit) := by
  have hcount := allowIter_countOf rl addr now k hfresh
  refine ⟨countOf_allow_same _ _ _, ?_, hcount, ?_, ?_⟩
  · rw [allow_fst]
    simp
  · rw [allow_snd_activity, lookupClient_setClient_self, hcount]
  · rw [allow_fst, hcount, allowIter_limit]
    simp

/-- Witness for C1: limit 2, a fresh client, `k = 2`: the stored count is 2,
the third call stores 3 and is denied (`3 ≤ 2` is false). -/
theorem allow_increments_and_thresholds_witness :
    lookupClient (RateLimiter.mk 2 [] second minute).activity
        (extractClientID ['a', ':', '8', '0']) = none
    ∧ (countOf ((RateLimiter.mk 2 [] second minute).Allow ['a', ':', '8', '0'] 7).2
          (extractClientID ['a', ':', '8', '0'])
        = countOf (RateLimiter.mk 2 [] second minute) (extractClientID ['a', ':', '8', '0']) + 1
       ∧ (((RateLimiter.mk 2 [] second minute).Allow ['a', ':', '8', '0'] 7).1 = true
            ↔ countOf (RateLimiter.mk 2 [] second minute)
                (extractClientID ['a', ':', '8', '0']) + 1
              ≤ (RateLimiter.mk 2 [] second minute).limit)
       ∧ countOf (allowIter (RateLimiter.mk 2 [] second minute) ['a', ':', '8', '0'] 7 2)
          (extractClientID ['a', ':', '8', '0']) = ((2 : Nat) : Int)
       ∧ lookupClient
            ((allowIter (RateLimiter.mk 2 [] second minute) ['a', ':', '8', '0'] 7 2).Allow
                ['a', ':', '8', '0'] 7).2.activity (extractClientID ['a', ':', '8', '0'])
          = some { requestCount := ((2 : Nat) : Int) + 1, lastSeen := 7 }
       ∧ (((allowIter (RateLimiter.mk 2 [] second minute) ['a', ':', '8', '0'] 7 2).Allow
              ['a', ':', '8', '0'] 7).1 = true
            ↔ ((2 : Nat) : Int) + 1 ≤ (RateLimiter.mk 2 [] second minute).limit)) :=
  ⟨rfl, allow_increments_and_thresholds (RateLimiter.mk 2 [] second minute)
    (RateLimiter.mk 2 [] second minute) ['a', ':', '8', '0'] 7 2 rfl⟩

/-- C9. An `Allow` call touches only the record of the extracted identity:
every other identity's record is unchanged, the key sequence either stays
the same or gains exactly the extracted identity at the end, and
`NumberOfClients` never decreases. -/
theorem allow_frame_effect (rl : RateLimiter) (addr : ClientID) (now : Int)
    (id' : ClientID) (h : id' ≠ extractClientID addr) :
    lookupClient (rl.Allow addr now).2.activity id' = lookupClient rl.activity id'
    ∧ ((rl.Allow addr now).2.activity.map Prod.fst = rl.activity.map Prod.fst
        ∨ (rl.Allow addr now).2.activity.map Prod.fst
            = rl.activity.map Prod.fst ++ [extractClientID addr])
    ∧ rl.NumberOfClients ≤ (rl.Allow addr now).2.NumberOfClients := by
  refine ⟨?_, ?_, ?_⟩
  · rw [allow_snd_activity]
    exact lookupClient_setClient_other _ _ _ _ h
  · rw [allow_snd_activity]
    rcases setClient_keys rl.activity (extractClientID addr)
        { requestCount := countOf rl (extractClientID addr) + 1, lastSeen := now } with
      ⟨h1, _⟩ | ⟨h1, _⟩
    · exact Or.inl h1
    · exact Or.inr h1
  · simp only [RateLimiter.NumberOfClients, allow_snd_activity]
    exact_mod_cast setClient_length _ _ _

/-- Witness for C9: a request from `a:80` leaves client `b` untouched,
appends key `a`, and grows the client count. -/
theorem allow_frame_effect_witness :
    (['b'] ≠ extractClientID ['a', ':', '8', '0'])
    ∧ (lookupClient ((RateLimiter.mk 2 [] second minute).Allow
          ['a', ':', '8', '0'] 7).2.activity ['b']
        = lookupClient (RateLimiter.mk 2 [] second minute).activity ['b']
       ∧ (((RateLimiter.mk 2 [] second minute).Allow ['a', ':', '8', '0'] 7).2.activity.map
              Prod.fst
            = (RateLimiter.mk 2 [] second minute).activity.map Prod.fst
          ∨ ((RateLimiter.mk 2 [] second minute).Allow ['a', ':', '8', '0'] 7).2.activity.map
              Prod.fst
            = (RateLimiter.mk 2 [] second minute).activity.map Prod.fst
                ++ [extractClientID ['a', ':', '8', '0']])
       ∧ (RateLimiter.mk 2 [] second minute).NumberOfClients
          ≤ ((RateLimiter.mk 2 [] second minute).Allow
              ['a', ':', '8', '0'] 7).2.NumberOfClients) :=
  ⟨by decide, allow_frame_effect (RateLimiter.mk 2 [] second minute)
    ['a', ':', '8', '0'] 7 ['b'] (by decide)⟩

/-- C5. Between two reset ticks, stored counts are non-decreasing across any
sequence of `Allow` calls, so a client once denied stays denied for every
later call in the same interval, whatever other calls happen in between. -/
theorem denied_stays_denied_until_reset (rl : RateLimiter) (addr : ClientID)
    (now now2 : Int) (calls : List (ClientID × Int)) (id' : ClientID)
    (hfalse : (rl.Allow addr now).1 = false) :
    countOf (rl.Allow addr now).2 id'
      ≤ countOf (applyAllows (rl.Allow addr now).2 calls) id'
    ∧ ((applyAllows (rl.Allow addr now).2 calls).Allow addr now2).1 = false := by
  refine ⟨applyAllows_count_mono _ _ _, ?_⟩
  rw [allow_fst] at hfalse ⊢
  have h1 : ¬ (countOf rl (extractClientID addr) + 1 ≤ rl.limit) := by
    simpa using hfalse
  have h2 : countOf (rl.Allow addr now).2 (extractClientID addr)
      = countOf rl (extractClientID addr) + 1 := countOf_allow_same _ _ _
  have h3 : countOf (rl.Allow addr now).2 (extractClientID addr)
      ≤ countOf (applyAllows (rl.Allow addr now).2 calls) (extractClientID addr) :=
    applyAllows_count_mono _ _ _
  have h4 : (applyAllows (rl.Allow addr now).2 calls).limit = rl.limit := by
    rw [applyAllows_limit, allow_snd_limit]
  rw [h4]
  simp only [decide_eq_false_iff_not]
  omega

/-- Witness for C5: limit 1 and a client already at count 1: its next call
is denied, and after an interleaved call from another client it is denied
again. -/
theorem denied_stays_denied_until_reset_witness :
    ((RateLimiter.mk 1 [(['a'], ClientActivity.mk 1 0)] second minute).Allow
        ['a', ':', '8', '0'] 5).1 = false
    ∧ (countOf ((RateLimiter.mk 1 [(['a'], ClientActivity.mk 1 0)] second minute).Allow
          ['a', ':', '8', '0'] 5).2 ['a']
        ≤ countOf (applyAllows
            ((RateLimiter.mk 1 [(['a'], ClientActivity.mk 1 0)] second minute).Allow
              ['a', ':', '8', '0'] 5).2 [(['b', ':', '9'], 6)]) ['a']
       ∧ ((applyAllows
            ((RateLimiter.mk 1 [(['a'], ClientActivity.mk 1 0)] second minute).Allow
              ['a', ':', '8', '0'] 5).2 [(['b', ':', '9'], 6)]).Allow
            ['a', ':', '8', '0'] 9).1 = false) :=
  ⟨by decide, denied_stays_denied_until_reset
    (RateLimiter.mk 1 [(['a'], ClientActivity.mk 1 0)] second minute)
    ['a', ':', '8', '0'] 5 9 [(['b', ':', '9'], 6)] ['a'] (by decide)⟩

end ProductsApi
